import Mathlib

/-!
Verification of the Slowork job-marketplace core (slowork/models.py,
slowork/views.py, slowork/services.py, slowork/signals.py).

The Django data model becomes a record of entity lists (`MarketState`);
each view function that mutates state becomes a pure Lean function from
a state and the request data to a new state paired with an `Outcome`
describing the HTTP-level result (success message, info message, error
message, 403, 404, form re-render).  A database transaction in the source
is a single transition of the `Step` relation, so the states visible to
an observer are exactly those of the `Reachable` predicate.
-/

namespace Slowork

/-- User.ROLE_CHOICES in models.py. -/
inductive Role where
  | employer
  | freelancer
  | admin
deriving DecidableEq, Repr

/-- Job.STATUS_CHOICES in models.py ("open" is spelt `open_`). -/
inductive JobStatus where
  | open_
  | assigned
  | in_progress
  | submitted
  | completed
  | cancelled
deriving DecidableEq, Repr

/-- Application.STATUS_CHOICES in models.py. -/
inductive ApplicationStatus where
  | pending
  | accepted
  | rejected
deriving DecidableEq, Repr

/-- WorkSubmission.STATUS_CHOICES in models.py. -/
inductive SubmissionStatus where
  | draft
  | submitted
  | resubmitted
  | approved
  | changes_requested
deriving DecidableEq, Repr

/-- Notification.TYPE_CHOICES in models.py. -/
inductive NotifType where
  | apply
  | status
  | review
  | system
deriving DecidableEq, Repr

/-- The result a view hands back to the presentation layer:
`ok` = messages.success, `info` = messages.info (informational no-op),
`error` = messages.error (invalid operation), `forbidden` =
HttpResponseForbidden, `notFound` = get_object_or_404 miss, `render` =
form re-rendered without a state change (invalid form data). -/
inductive Outcome where
  | ok
  | info
  | error
  | forbidden
  | notFound
  | render
deriving DecidableEq, Repr

/-- User (models.py): identity, role and the derived rating aggregate.
`rating_avg` holds the DecimalField value in hundredths (two decimal
places, exactly as quantized by the source). -/
structure User where
  id : Nat
  username : String
  role : Role
  rating_avg : Nat
  rating_count : Nat
deriving DecidableEq, Repr

/-- Job (models.py): employer, budget range, lifecycle status and the
optional selected application (stored as an application id). -/
structure Job where
  id : Nat
  employer : Nat
  title : String
  budget_min : Nat
  budget_max : Nat
  status : JobStatus
  selected_application : Option Nat
deriving DecidableEq, Repr

/-- Application (models.py): one freelancer's proposal on one job. -/
structure Application where
  id : Nat
  job : Nat
  freelancer : Nat
  cover_message : String
  proposed_budget : Nat
  proposed_days : Nat
  status : ApplicationStatus
deriving DecidableEq, Repr

/-- WorkSubmission (models.py). -/
structure WorkSubmission where
  id : Nat
  application : Nat
  job : Nat
  submitted_by : Nat
  text_notes : String
  change_request_reason : Option String
  status : SubmissionStatus
deriving DecidableEq, Repr

/-- SubmissionFile (models.py), only the fields the views touch. -/
structure SubmissionFile where
  id : Nat
  submission : Nat
  file : String
deriving DecidableEq, Repr

/-- Review (models.py). -/
structure Review where
  id : Nat
  job : Nat
  reviewer : Nat
  reviewee : Nat
  rating : Nat
  comment : String
deriving DecidableEq, Repr

/-- Notification (models.py). -/
structure Notification where
  id : Nat
  user : Nat
  ntype : NotifType
  title : String
  message : String
  ref_type : Option String
  ref_id : Option Nat
  is_read : Bool
deriving DecidableEq, Repr

/-- The relational store: one list per table, plus the next free primary
key for each table that the modelled operations insert into. -/
structure MarketState where
  users : List User
  jobs : List Job
  applications : List Application
  submissions : List WorkSubmission
  submission_files : List SubmissionFile
  reviews : List Review
  notifications : List Notification
  next_job_id : Nat
  next_app_id : Nat
  next_sub_id : Nat
  next_file_id : Nat
  next_review_id : Nat
  next_notif_id : Nat
deriving DecidableEq, Repr

/-- `request.user.username` lookup used when a view builds a message. -/
def username (s : MarketState) (uid : Nat) : String :=
  ((s.users.find? (fun u => u.id == uid)).map (fun u => u.username)).getD ""

/-- create_notification (views.py / services.py): no-op on an absent
user, otherwise persists exactly one Notification with is_read=False. -/
def create_notification (s : MarketState) (user : Option Nat) (ntype : NotifType)
    (title message : String) (ref_type : Option String) (ref_id : Option Nat) :
    MarketState × Option Notification :=
  match user with
  | none => (s, none)
  | some uid =>
    let n : Notification :=
      { id := s.next_notif_id, user := uid, ntype := ntype, title := title,
        message := message, ref_type := ref_type, ref_id := ref_id, is_read := false }
    ({ s with notifications := s.notifications ++ [n],
              next_notif_id := s.next_notif_id + 1 }, some n)

/-- create_notification (services.py) under an explicit persistence
collaborator: `persist_fails uid = true` means the database write of the
Notification row for that user raises.  `Except.error ()` is the
propagating exception; the `transaction.atomic` block around the single
create means a failed write leaves no row behind. -/
def create_notification_persist (persist_fails : Nat → Bool) (s : MarketState)
    (user : Option Nat) (ntype : NotifType) (title message : String)
    (ref_type : Option String) (ref_id : Option Nat) :
    MarketState × Except Unit (Option Notification) :=
  match user with
  | none => (s, Except.ok none)
  | some uid =>
    if persist_fails uid then (s, Except.error ())
    else
      let n : Notification :=
        { id := s.next_notif_id, user := uid, ntype := ntype, title := title,
          message := message, ref_type := ref_type, ref_id := ref_id, is_read := false }
      ({ s with notifications := s.notifications ++ [n],
                next_notif_id := s.next_notif_id + 1 }, Except.ok (some n))

/-- notify_users (services.py): a plain for-loop over the users calling
create_notification and collecting the truthy results.  There is no
try/except around the body, so an exception raised while persisting one
user's notification propagates and ends the loop; rows created before it
stay committed (each create has its own transaction.atomic). -/
def notify_users (persist_fails : Nat → Bool) (s : MarketState)
    (users : List (Option Nat)) (ntype : NotifType) (title message : String)
    (ref_type : Option String) (ref_id : Option Nat) :
    MarketState × Except Unit (List Notification) :=
  match users with
  | [] => (s, Except.ok [])
  | u :: rest =>
    match create_notification_persist persist_fails s u ntype title message ref_type ref_id with
    | (s1, Except.error e) => (s1, Except.error e)
    | (s1, Except.ok none) => notify_users persist_fails s1 rest ntype title message ref_type ref_id
    | (s1, Except.ok (some n)) =>
      match notify_users persist_fails s1 rest ntype title message ref_type ref_id with
      | (s2, Except.ok ns) => (s2, Except.ok (n :: ns))
      | (s2, Except.error e) => (s2, Except.error e)

/-- job_create (views.py): a valid JobForm (clean() rejects
budget_min > budget_max) saves a Job owned by the caller in status open
with no selected application. -/
def job_create (s : MarketState) (caller : Nat) (title : String)
    (budget_min budget_max : Nat) : MarketState × Outcome :=
  if budget_min ≤ budget_max then
    let job : Job :=
      { id := s.next_job_id, employer := caller, title := title,
        budget_min := budget_min, budget_max := budget_max,
        status := JobStatus.open_, selected_application := none }
    ({ s with jobs := s.jobs ++ [job], next_job_id := s.next_job_id + 1 }, Outcome.ok)
  else (s, Outcome.render)

/-- application_create (views.py): guards in source order (own job,
job not open, duplicate application), then the ApplicationForm
(proposed_days ≥ 1 by the model validator) saves a pending Application
and notifies the employer. -/
def application_create (s : MarketState) (caller job_id : Nat)
    (cover_message : String) (proposed_budget proposed_days : Nat) :
    MarketState × Outcome :=
  match s.jobs.find? (fun j => j.id == job_id) with
  | none => (s, Outcome.notFound)
  | some job =>
    if job.employer = caller then (s, Outcome.error)
    else if job.status ≠ JobStatus.open_ then (s, Outcome.error)
    else if s.applications.any (fun a => a.job == job.id && a.freelancer == caller) then
      (s, Outcome.info)
    else if 1 ≤ proposed_days then
      let app : Application :=
        { id := s.next_app_id, job := job.id, freelancer := caller,
          cover_message := cover_message, proposed_budget := proposed_budget,
          proposed_days := proposed_days, status := ApplicationStatus.pending }
      let s1 := { s with applications := s.applications ++ [app],
                         next_app_id := s.next_app_id + 1 }
      ((create_notification s1 (some job.employer) NotifType.apply
          "New application received"
          (username s caller ++ " applied to your job " ++ job.title)
          (some "job") (some job.id)).1, Outcome.ok)
    else (s, Outcome.render)

/-- The action argument of application_update_status. -/
inductive AppAction where
  | accept
  | reject
  | other
deriving DecidableEq, Repr

/-- The per-row effect of the accept branch: the accepted application's
row flips to accepted, every other row of the same job is force-rejected
(job.applications.exclude(pk=...).update(status=rejected)). -/
def accept_update (pk jobId : Nat) (a : Application) : Application :=
  if a.id = pk then { a with status := ApplicationStatus.accepted }
  else if a.job = jobId then { a with status := ApplicationStatus.rejected }
  else a

/-- The per-row effect of the reject branch: only the targeted row. -/
def reject_update (pk : Nat) (a : Application) : Application :=
  if a.id = pk then { a with status := ApplicationStatus.rejected } else a

/-- The job row update inside the accept transaction. -/
def assign_update (jobId pk : Nat) (j : Job) : Job :=
  if j.id = jobId then
    { j with status := JobStatus.assigned, selected_application := some pk }
  else j

/-- application_update_status (views.py): the Application is fetched with
pk and job__employer=request.user (404 on a mismatch).  The accept branch
runs its three writes inside one transaction.atomic, then notifies the
freelancer; the reject branch flips just the one row.  Neither branch
checks the job's or the application's current status. -/
def application_update_status (s : MarketState) (caller pk : Nat)
    (action : AppAction) : MarketState × Outcome :=
  match s.applications.find? (fun a => a.id == pk) with
  | none => (s, Outcome.notFound)
  | some app =>
    match s.jobs.find? (fun j => j.id == app.job) with
    | none => (s, Outcome.notFound)
    | some job =>
      if job.employer = caller then
        match action with
        | AppAction.accept =>
          let s1 := { s with
            applications := s.applications.map (accept_update app.id job.id),
            jobs := s.jobs.map (assign_update job.id app.id) }
          ((create_notification s1 (some app.freelancer) NotifType.status
              "Application accepted"
              ("You have been selected for " ++ job.title)
              (some "job") (some job.id)).1, Outcome.ok)
        | AppAction.reject =>
          let s1 := { s with
            applications := s.applications.map (reject_update app.id) }
          ((create_notification s1 (some app.freelancer) NotifType.status
              "Application update"
              ("Your application for " ++ job.title ++ " was rejected")
              (some "job") (some job.id)).1, Outcome.info)
        | AppAction.other => (s, Outcome.error)
      else (s, Outcome.notFound)

/-- job_mark_completed (views.py): the Job is fetched with pk and
employer=request.user, set to completed with no check of its current
status, and the selected freelancer is notified only when
selected_application is set. -/
def job_mark_completed (s : MarketState) (caller pk : Nat) :
    MarketState × Outcome :=
  match s.jobs.find? (fun j => j.id == pk && j.employer == caller) with
  | none => (s, Outcome.notFound)
  | some job =>
    let s1 := { s with jobs := s.jobs.map (fun j =>
      if j.id = job.id then { j with status := JobStatus.completed } else j) }
    match job.selected_application with
    | none => (s1, Outcome.ok)
    | some aid =>
      match s.applications.find? (fun a => a.id == aid) with
      | none => (s1, Outcome.ok)
      | some app =>
        ((create_notification s1 (some app.freelancer) NotifType.status
            "Job marked as completed"
            ("The employer marked " ++ job.title ++ " as completed")
            (some "job") (some job.id)).1, Outcome.ok)

/-- work_submission_create (views.py): only the application's freelancer
may submit (403 otherwise); a not-yet-accepted application is an error
redirect; with a valid WorkSubmissionForm and SubmissionFileFormSet
(`files_valid` stands for the formset's size/extension validation of the
uploaded request files, which live outside the modelled store) one
WorkSubmission is saved — resubmitted when a prior submission of this
application carries changes_requested, else submitted — its files are
stored, and the job moves to submitted, all in one transaction; the
employer is then notified. -/
def work_submission_create (s : MarketState) (caller application_id : Nat)
    (text_notes : String) (files : List String) (files_valid : Bool) :
    MarketState × Outcome :=
  match s.applications.find? (fun a => a.id == application_id) with
  | none => (s, Outcome.notFound)
  | some app =>
    match s.jobs.find? (fun j => j.id == app.job) with
    | none => (s, Outcome.notFound)
    | some job =>
      if app.freelancer = caller then
        if app.status = ApplicationStatus.accepted then
          if files_valid then
            let st :=
              if s.submissions.any (fun w =>
                  w.application == app.id && w.status == SubmissionStatus.changes_requested)
              then SubmissionStatus.resubmitted else SubmissionStatus.submitted
            let sub : WorkSubmission :=
              { id := s.next_sub_id, application := app.id, job := job.id,
                submitted_by := caller, text_notes := text_notes,
                change_request_reason := none, status := st }
            let rows := (List.range files.length).zip files
            let fileRows := rows.map (fun p =>
              ({ id := s.next_file_id + p.1, submission := sub.id, file := p.2 } : SubmissionFile))
            let s1 := { s with
              submissions := s.submissions ++ [sub],
              submission_files := s.submission_files ++ fileRows,
              next_sub_id := s.next_sub_id + 1,
              next_file_id := s.next_file_id + files.length,
              jobs := s.jobs.map (fun j =>
                if j.id = job.id then { j with status := JobStatus.submitted } else j) }
            ((create_notification s1 (some job.employer) NotifType.status
                "Work submitted"
                (username s caller ++ " submitted work for " ++ job.title)
                (some "job") (some job.id)).1, Outcome.ok)
          else (s, Outcome.render)
        else (s, Outcome.error)
      else (s, Outcome.forbidden)

/-- The action argument of work_submission_update_status. -/
inductive SubAction where
  | approve
  | request_changes
  | other
deriving DecidableEq, Repr

/-- work_submission_update_status (views.py): the WorkSubmission is
fetched with pk and job__employer=request.user; approve clears the
change-request reason, approves the submission and completes the job;
request_changes demands a non-empty stripped reason, stores it, flags the
submission and moves the job back to in_progress; both then notify the
freelancer. -/
def work_submission_update_status (s : MarketState) (caller submission_id : Nat)
    (action : SubAction) (change_reason : String) : MarketState × Outcome :=
  match s.submissions.find? (fun w => w.id == submission_id) with
  | none => (s, Outcome.notFound)
  | some sub =>
    match s.jobs.find? (fun j => j.id == sub.job) with
    | none => (s, Outcome.notFound)
    | some job =>
      if job.employer = caller then
        match action with
        | SubAction.approve =>
          let s1 := { s with
            submissions := s.submissions.map (fun w =>
              if w.id = sub.id then
                { w with status := SubmissionStatus.approved, change_request_reason := none }
              else w),
            jobs := s.jobs.map (fun j =>
              if j.id = job.id then { j with status := JobStatus.completed } else j) }
          ((create_notification s1 (some sub.submitted_by) NotifType.status
              "Submission approved"
              ("Your submission for " ++ job.title ++ " was approved")
              (some "job") (some job.id)).1, Outcome.ok)
        | SubAction.request_changes =>
          let reason := change_reason.trim
          if reason = "" then (s, Outcome.error)
          else
            let s1 := { s with
              submissions := s.submissions.map (fun w =>
                if w.id = sub.id then
                  { w with status := SubmissionStatus.changes_requested,
                           change_request_reason := some reason }
                else w),
              jobs := s.jobs.map (fun j =>
                if j.id = job.id then { j with status := JobStatus.in_progress } else j) }
            ((create_notification s1 (some sub.submitted_by) NotifType.status
                "Changes requested"
                ("Changes were requested for " ++ job.title ++ ". Reason: " ++ reason)
                (some "submission") (some sub.id)).1, Outcome.info)
        | SubAction.other => (s, Outcome.error)
      else (s, Outcome.notFound)

/-- The integer arithmetic of quantize(Decimal("0.01"), ROUND_HALF_UP)
applied to sum/count, expressed in hundredths:
round-half-up(100 * sum / count) = (200 * sum + count) / (2 * count). -/
def half_up_hundredths (sum count : Nat) : Nat :=
  (200 * sum + count) / (2 * count)

/-- The per-row effect of the rating recompute on the user table: the
reviewee's aggregate fields are overwritten from the given count and
rating sum, every other row is untouched. -/
def rate_update (uid cnt sum : Nat) (u : User) : User :=
  if u.id = uid then
    if cnt = 0 then { u with rating_count := 0, rating_avg := 0 }
    else { u with rating_count := cnt, rating_avg := half_up_hundredths sum cnt }
  else u

/-- update_reviewee_rating (signals.py, and duplicated inside
Review.save in models.py): recompute the reviewee's rating_count and
rating_avg from the full current set of received reviews; both fields 0
when no review exists. -/
def update_reviewee_rating (s : MarketState) (uid : Nat) : MarketState :=
  let recs := s.reviews.filter (fun r => r.reviewee == uid)
  { s with
    users := s.users.map (rate_update uid recs.length (recs.map (fun r => r.rating)).sum) }

/-- The target segment of the review_create URL. -/
inductive ReviewTarget where
  | freelancer
  | employer
  | other
deriving DecidableEq, Repr

/-- The direction rules of review_create (views.py): who the reviewee is,
or which failure the view answers with.  target=freelancer requires the
caller to be the employer and a selected application to exist;
target=employer requires the caller to be a freelancer and to be the
selected freelancer of the job. -/
def review_target_reviewee (s : MarketState) (caller : Nat) (job : Job)
    (target : ReviewTarget) : Except Outcome Nat :=
  match target with
  | ReviewTarget.freelancer =>
    if job.employer = caller then
      match job.selected_application with
      | none => Except.error Outcome.error
      | some aid =>
        match s.applications.find? (fun a => a.id == aid) with
        | some app => Except.ok app.freelancer
        | none => Except.error Outcome.notFound
    else Except.error Outcome.forbidden
  | ReviewTarget.employer =>
    match s.users.find? (fun u => u.id == caller) with
    | some u =>
      if u.role = Role.freelancer then
        match job.selected_application with
        | none => Except.error Outcome.forbidden
        | some aid =>
          match s.applications.find? (fun a => a.id == aid) with
          | some app =>
            if app.freelancer = caller then Except.ok job.employer
            else Except.error Outcome.forbidden
          | none => Except.error Outcome.notFound
      else Except.error Outcome.forbidden
    | none => Except.error Outcome.forbidden
  | ReviewTarget.other => Except.error Outcome.error

/-- review_create (views.py): the completed-status gate comes first, then
the direction rules, then the duplicate check on (job, reviewer,
reviewee); a valid ReviewForm (rating an integer in 1..5) saves the
Review — whose save method and post_save signal both recompute the
reviewee's aggregate from the full current review set — and notifies the
reviewee. -/
def review_create (s : MarketState) (caller job_id : Nat) (target : ReviewTarget)
    (rating : Nat) (comment : String) : MarketState × Outcome :=
  match s.jobs.find? (fun j => j.id == job_id) with
  | none => (s, Outcome.notFound)
  | some job =>
    if job.status = JobStatus.completed then
      match review_target_reviewee s caller job target with
      | Except.error o => (s, o)
      | Except.ok reviewee =>
        if s.reviews.any (fun r =>
            r.job == job.id && r.reviewer == caller && r.reviewee == reviewee) then
          (s, Outcome.info)
        else if 1 ≤ rating ∧ rating ≤ 5 then
          let rev : Review :=
            { id := s.next_review_id, job := job.id, reviewer := caller,
              reviewee := reviewee, rating := rating, comment := comment }
          let s1 := { s with reviews := s.reviews ++ [rev],
                             next_review_id := s.next_review_id + 1 }
          let s2 := update_reviewee_rating s1 reviewee
          ((create_notification s2 (some reviewee) NotifType.review
              "New review received"
              (username s caller ++ " left you a review on " ++ job.title)
              (some "job") (some job.id)).1, Outcome.ok)
        else (s, Outcome.render)
    else (s, Outcome.error)

/-- A valid starting state: registered users only (distinct ids, rating
fields at their model defaults), no rows in any other table yet. -/
def Init (s : MarketState) : Prop :=
  s.jobs = [] ∧ s.applications = [] ∧ s.submissions = [] ∧
  s.submission_files = [] ∧ s.reviews = [] ∧ s.notifications = [] ∧
  (s.users.map (fun u => u.id)).Nodup ∧
  ∀ u ∈ s.users, u.rating_avg = 0 ∧ u.rating_count = 0

instance : DecidablePred Init := fun s => by
  unfold Init; infer_instance

/-- One public operation of the core, as one atomic transition: every
database transaction of the source is a single step, so no state with a
partially applied transaction is ever observable. -/
inductive Step : MarketState → MarketState → Prop where
  | post_job (s : MarketState) (caller : Nat) (title : String) (bmin bmax : Nat) :
      Step s (job_create s caller title bmin bmax).1
  | apply_to_job (s : MarketState) (caller job_id : Nat) (cm : String) (pb pd : Nat) :
      Step s (application_create s caller job_id cm pb pd).1
  | decide_application (s : MarketState) (caller pk : Nat) (action : AppAction) :
      Step s (application_update_status s caller pk action).1
  | complete_job (s : MarketState) (caller pk : Nat) :
      Step s (job_mark_completed s caller pk).1
  | submit_work (s : MarketState) (caller application_id : Nat)
      (notes : String) (files : List String) (fv : Bool) :
      Step s (work_submission_create s caller application_id notes files fv).1
  | decide_submission (s : MarketState) (caller submission_id : Nat)
      (action : SubAction) (reason : String) :
      Step s (work_submission_update_status s caller submission_id action reason).1
  | post_review (s : MarketState) (caller job_id : Nat) (target : ReviewTarget)
      (rating : Nat) (comment : String) :
      Step s (review_create s caller job_id target rating comment).1

/-- The states an observer can ever see. -/
inductive Reachable : MarketState → Prop where
  | init (s : MarketState) : Init s → Reachable s
  | step (s s' : MarketState) : Reachable s → Step s s' → Reachable s'

/-! ### Properties under scrutiny -/

/-- Single-winner property: a job never carries two accepted
applications (two accepted rows on one job coincide). -/
def AtMostOneAccepted (s : MarketState) : Prop :=
  ∀ a₁ ∈ s.applications, ∀ a₂ ∈ s.applications,
    a₁.job = a₂.job → a₁.status = ApplicationStatus.accepted →
    a₂.status = ApplicationStatus.accepted → a₁ = a₂

/-- A set selected_application references an existing application row of
this very job. -/
def SelectedBelongs (s : MarketState) : Prop :=
  ∀ j ∈ s.jobs, ∀ aid, j.selected_application = some aid →
    ∃ a ∈ s.applications, a.id = aid ∧ a.job = j.id

/-- A set selected_application references an existing, accepted
application row of this very job (the invariant claimed in the spec). -/
def SelectedAccepted (s : MarketState) : Prop :=
  ∀ j ∈ s.jobs, ∀ aid, j.selected_application = some aid →
    ∃ a ∈ s.applications, a.id = aid ∧ a.job = j.id ∧
      a.status = ApplicationStatus.accepted

/-- Primary keys of the application table are pairwise distinct. -/
def AppIdsNodup (s : MarketState) : Prop :=
  (s.applications.map (fun a => a.id)).Nodup

/-- Every stored application id is below the next free id. -/
def AppIdsBound (s : MarketState) : Prop :=
  ∀ a ∈ s.applications, a.id < s.next_app_id

/-- The inductive invariant of the transition system. -/
def Inv (s : MarketState) : Prop :=
  AppIdsNodup s ∧ AppIdsBound s ∧ AtMostOneAccepted s ∧ SelectedBelongs s

/-- The combined effect the accept transaction promises: the chosen row
is accepted, every other row of the job is rejected, and the job is
assigned with the chosen row selected. -/
def AcceptedEffects (s' : MarketState) (pk jobId : Nat) : Prop :=
  (∀ a ∈ s'.applications, a.id = pk → a.status = ApplicationStatus.accepted) ∧
  (∀ a ∈ s'.applications, a.job = jobId → a.id ≠ pk →
    a.status = ApplicationStatus.rejected) ∧
  (∀ j ∈ s'.jobs, j.id = jobId →
    j.status = JobStatus.assigned ∧ j.selected_application = some pk)

/-- Every job row with the given id carries the given status. -/
def job_status_set (jobs : List Job) (jid : Nat) (st : JobStatus) : Prop :=
  ∀ j ∈ jobs, j.id = jid → j.status = st

/-- What job_mark_completed does to the notification table: exactly one
notification to the selected freelancer when selected_application is set
(and resolvable), nothing otherwise. -/
def NotifiesSelectedFreelancer (s s' : MarketState) (job : Job) : Prop :=
  match job.selected_application with
  | none => s'.notifications = s.notifications
  | some aid =>
    match s.applications.find? (fun a => a.id == aid) with
    | none => s'.notifications = s.notifications
    | some app =>
      s'.notifications.map (fun n => n.user) =
        s.notifications.map (fun n => n.user) ++ [app.freelancer]

/-- The specification's rating formula: the mean of the ratings, rounded
half-up to two decimal places, expressed in hundredths (0 for no
ratings), written with exact rational arithmetic. -/
def half_up_mean_hundredths (ratings : List Nat) : Nat :=
  if ratings.length = 0 then 0
  else Nat.floor ((100 : ℚ) * ((ratings.sum : ℚ) / (ratings.length : ℚ)) + 1 / 2)

/-- The user's stored aggregate equals the specification's formula
applied to the full current set of reviews they received. -/
def RatingAggregateCorrect (s : MarketState) (uid : Nat) : Prop :=
  ∀ u ∈ s.users, u.id = uid →
    u.rating_count = (s.reviews.filter (fun r => r.reviewee == uid)).length ∧
    u.rating_avg = half_up_mean_hundredths
      ((s.reviews.filter (fun r => r.reviewee == uid)).map (fun r => r.rating))

/-! ### Concrete scenario used by the witnesses and counterexamples
(the scenario of spec section 8: employer 1 posts job 10, freelancers 2
and 3 apply, freelancer 2 is accepted). -/

def u1 : User :=
  { id := 1, username := "emp", role := Role.employer, rating_avg := 0, rating_count := 0 }
def u2 : User :=
  { id := 2, username := "fre", role := Role.freelancer, rating_avg := 0, rating_count := 0 }
def u3 : User :=
  { id := 3, username := "gig", role := Role.freelancer, rating_avg := 0, rating_count := 0 }

/-- Starting state: three registered users, empty tables. -/
def s0 : MarketState :=
  { users := [u1, u2, u3], jobs := [], applications := [], submissions := [],
    submission_files := [], reviews := [], notifications := [],
    next_job_id := 10, next_app_id := 20, next_sub_id := 30, next_file_id := 40,
    next_review_id := 50, next_notif_id := 60 }

/-- Employer 1 posts job 10. -/
def s1 : MarketState := (job_create s0 1 "T" 100 200).1
/-- Freelancer 2 applies (application 20). -/
def s2 : MarketState := (application_create s1 2 10 "" 150 5).1
/-- Freelancer 3 applies (application 21). -/
def s2b : MarketState := (application_create s2 3 10 "" 120 7).1
/-- Employer accepts application 20. -/
def s3 : MarketState := (application_update_status s2b 1 20 AppAction.accept).1
/-- Employer then rejects application 20 — the accepted, selected one. -/
def s4 : MarketState := (application_update_status s3 1 20 AppAction.reject).1
/-- Employer marks job 10 completed (from s3). -/
def s5 : MarketState := (job_mark_completed s3 1 10).1
/-- Freelancer 2 submits work on application 20 (from s3). -/
def s6 : MarketState := (work_submission_create s3 2 20 "done" [] true).1
/-- Employer reviews freelancer 2 with rating 5 (from s5). -/
def s7 : MarketState := (review_create s5 1 10 ReviewTarget.freelancer 5 "").1

/-- Job 10 as stored in s1/s2/s2b. -/
def j10 : Job :=
  { id := 10, employer := 1, title := "T", budget_min := 100, budget_max := 200,
    status := JobStatus.open_, selected_application := none }

/-- Job 10 as stored in s3 (assigned, application 20 selected). -/
def j10a : Job :=
  { id := 10, employer := 1, title := "T", budget_min := 100, budget_max := 200,
    status := JobStatus.assigned, selected_application := some 20 }

/-- Job 10 as stored in s5/s7 (completed). -/
def j10c : Job :=
  { id := 10, employer := 1, title := "T", budget_min := 100, budget_max := 200,
    status := JobStatus.completed, selected_application := some 20 }

/-- Application 20 as stored in s2/s2b (pending). -/
def a20 : Application :=
  { id := 20, job := 10, freelancer := 2, cover_message := "",
    proposed_budget := 150, proposed_days := 5, status := ApplicationStatus.pending }

/-- Application 20 as stored in s3 (accepted). -/
def a20a : Application :=
  { id := 20, job := 10, freelancer := 2, cover_message := "",
    proposed_budget := 150, proposed_days := 5, status := ApplicationStatus.accepted }

/-- Application 21 as stored in s3 (force-rejected by the accept). -/
def a21r : Application :=
  { id := 21, job := 10, freelancer := 3, cover_message := "",
    proposed_budget := 120, proposed_days := 7, status := ApplicationStatus.rejected }

/-- A lone cancelled job owned by employer 1, for exercising
job_mark_completed on a job in an arbitrary state. -/
def jX : Job :=
  { id := 12, employer := 1, title := "X", budget_min := 0, budget_max := 0,
    status := JobStatus.cancelled, selected_application := none }

/-- s0 with only the cancelled job jX. -/
def sX : MarketState := { s0 with jobs := [jX] }

/-! ### Basic facts about the building blocks -/

theorem create_notification_applications (s : MarketState) (u : Option Nat)
    (nt : NotifType) (t m : String) (rt : Option String) (ri : Option Nat) :
    (create_notification s u nt t m rt ri).1.applications = s.applications := by
  cases u <;> rfl

theorem create_notification_jobs (s : MarketState) (u : Option Nat)
    (nt : NotifType) (t m : String) (rt : Option String) (ri : Option Nat) :
    (create_notification s u nt t m rt ri).1.jobs = s.jobs := by
  cases u <;> rfl

theorem create_notification_users (s : MarketState) (u : Option Nat)
    (nt : NotifType) (t m : String) (rt : Option String) (ri : Option Nat) :
    (create_notification s u nt t m rt ri).1.users = s.users := by
  cases u <;> rfl

theorem create_notification_reviews (s : MarketState) (u : Option Nat)
    (nt : NotifType) (t m : String) (rt : Option String) (ri : Option Nat) :
    (create_notification s u nt t m rt ri).1.reviews = s.reviews := by
  cases u <;> rfl

theorem create_notification_next_app_id (s : MarketState) (u : Option Nat)
    (nt : NotifType) (t m : String) (rt : Option String) (ri : Option Nat) :
    (create_notification s u nt t m rt ri).1.next_app_id = s.next_app_id := by
  cases u <;> rfl

theorem create_notification_some_users_map (s : MarketState) (uid : Nat)
    (nt : NotifType) (t m : String) (rt : Option String) (ri : Option Nat) :
    ((create_notification s (some uid) nt t m rt ri).1.notifications.map (fun n => n.user)) =
      s.notifications.map (fun n => n.user) ++ [uid] := by
  simp [create_notification]

theorem accept_update_id (pk jid : Nat) (a : Application) :
    (accept_update pk jid a).id = a.id := by
  unfold accept_update; split_ifs <;> rfl

theorem accept_update_job (pk jid : Nat) (a : Application) :
    (accept_update pk jid a).job = a.job := by
  unfold accept_update; split_ifs <;> rfl

theorem accept_update_of_id (pk jid : Nat) (a : Application) (h : a.id = pk) :
    (accept_update pk jid a).status = ApplicationStatus.accepted := by
  unfold accept_update; rw [if_pos h]

theorem accept_update_of_other (pk jid : Nat) (a : Application)
    (h : a.id ≠ pk) (hj : a.job = jid) :
    (accept_update pk jid a).status = ApplicationStatus.rejected := by
  unfold accept_update; rw [if_neg h, if_pos hj]

theorem accept_update_status_accepted (pk jid : Nat) (a : Application)
    (h : (accept_update pk jid a).status = ApplicationStatus.accepted) :
    a.id = pk ∨ (a.id ≠ pk ∧ a.job ≠ jid ∧ a.status = ApplicationStatus.accepted) := by
  unfold accept_update at h
  split_ifs at h with h1 h2
  · exact Or.inl h1
  · exact Or.inr ⟨h1, h2, h⟩

theorem reject_update_id (pk : Nat) (a : Application) :
    (reject_update pk a).id = a.id := by
  unfold reject_update; split_ifs <;> rfl

theorem reject_update_job (pk : Nat) (a : Application) :
    (reject_update pk a).job = a.job := by
  unfold reject_update; split_ifs <;> rfl

theorem reject_update_of_ne (pk : Nat) (a : Application) (h : a.id ≠ pk) :
    reject_update pk a = a := by
  unfold reject_update; rw [if_neg h]

theorem reject_update_status_accepted (pk : Nat) (a : Application)
    (h : (reject_update pk a).status = ApplicationStatus.accepted) :
    a.status = ApplicationStatus.accepted := by
  unfold reject_update at h
  split_ifs at h with h1
  · exact h

theorem assign_update_id (jid pk : Nat) (j : Job) :
    (assign_update jid pk j).id = j.id := by
  unfold assign_update; split_ifs <;> rfl

theorem map_id_preserving_nodup {f : Application → Application}
    (hid : ∀ a, (f a).id = a.id) {l : List Application}
    (h : (l.map (fun a => a.id)).Nodup) :
    ((l.map f).map (fun a => a.id)).Nodup := by
  rw [List.map_map]
  have he : ((fun a => a.id) ∘ f) = (fun a : Application => a.id) :=
    funext (fun a => hid a)
  rw [he]; exact h

theorem eq_of_mem_of_id {l : List Application} {a b : Application}
    (h : (l.map (fun x => x.id)).Nodup) (ha : a ∈ l) (hb : b ∈ l)
    (hid : a.id = b.id) : a = b :=
  List.inj_on_of_nodup_map h ha hb hid

/-! ### Preservation of the inductive invariant -/

theorem Inv_of_eq (s s' : MarketState)
    (ha : s'.applications = s.applications) (hj : s'.jobs = s.jobs)
    (hn : s'.next_app_id = s.next_app_id) (h : Inv s) : Inv s' := by
  unfold Inv AppIdsNodup AppIdsBound AtMostOneAccepted SelectedBelongs at h ⊢
  rw [ha, hj, hn]; exact h

theorem Inv_of_jobs_map (s s' : MarketState) (g : Job → Job)
    (ha : s'.applications = s.applications) (hj : s'.jobs = s.jobs.map g)
    (hn : s'.next_app_id = s.next_app_id)
    (hid : ∀ j, (g j).id = j.id)
    (hsel : ∀ j, (g j).selected_application = j.selected_application)
    (h : Inv s) : Inv s' := by
  obtain ⟨h1, h2, h3, h4⟩ := h
  refine ⟨?_, ?_, ?_, ?_⟩
  · unfold AppIdsNodup at h1 ⊢; rw [ha]; exact h1
  · unfold AppIdsBound at h2 ⊢; rw [ha, hn]; exact h2
  · unfold AtMostOneAccepted at h3 ⊢; rw [ha]; exact h3
  · unfold SelectedBelongs at h4 ⊢
    rw [ha, hj]
    intro j' hj' aid hsel'
    obtain ⟨j, hjm, rfl⟩ := List.mem_map.mp hj'
    rw [hsel j] at hsel'
    obtain ⟨a, ham, haid, hajob⟩ := h4 j hjm aid hsel'
    exact ⟨a, ham, haid, by rw [hid j]; exact hajob⟩

theorem SelAcc_of_eq (s s' : MarketState)
    (ha : s'.applications = s.applications) (hj : s'.jobs = s.jobs)
    (h : SelectedAccepted s) : SelectedAccepted s' := by
  unfold SelectedAccepted at h ⊢
  rw [ha, hj]; exact h

theorem SelAcc_of_jobs_map (s s' : MarketState) (g : Job → Job)
    (ha : s'.applications = s.applications) (hj : s'.jobs = s.jobs.map g)
    (hid : ∀ j, (g j).id = j.id)
    (hsel : ∀ j, (g j).selected_application = j.selected_application)
    (h : SelectedAccepted s) : SelectedAccepted s' := by
  unfold SelectedAccepted at h ⊢
  rw [ha, hj]
  intro j' hj' aid hsel'
  obtain ⟨j, hjm, rfl⟩ := List.mem_map.mp hj'
  rw [hsel j] at hsel'
  obtain ⟨a, ham, haid, hajob, hast⟩ := h j hjm aid hsel'
  exact ⟨a, ham, haid, by rw [hid j]; exact hajob, hast⟩

theorem SelAcc_of_apps_append (s s' : MarketState) (x : Application)
    (ha : s'.applications = s.applications ++ [x]) (hj : s'.jobs = s.jobs)
    (h : SelectedAccepted s) : SelectedAccepted s' := by
  unfold SelectedAccepted at h ⊢
  rw [ha, hj]
  intro j hjm aid hsel'
  obtain ⟨a, ham, rest⟩ := h j hjm aid hsel'
  exact ⟨a, List.mem_append_left _ ham, rest⟩

theorem atMostOne_accept (l : List Application) (app : Application) (jid : Nat)
    (hnd : (l.map (fun a => a.id)).Nodup)
    (hmo : ∀ a₁ ∈ l, ∀ a₂ ∈ l, a₁.job = a₂.job →
      a₁.status = ApplicationStatus.accepted →
      a₂.status = ApplicationStatus.accepted → a₁ = a₂)
    (hmem : app ∈ l) (hjob : app.job = jid) :
    ∀ b₁ ∈ l.map (accept_update app.id jid), ∀ b₂ ∈ l.map (accept_update app.id jid),
      b₁.job = b₂.job → b₁.status = ApplicationStatus.accepted →
      b₂.status = ApplicationStatus.accepted → b₁ = b₂ := by
  intro b₁ hb₁ b₂ hb₂ hj hs₁ hs₂
  obtain ⟨a₁, ha₁, rfl⟩ := List.mem_map.mp hb₁
  obtain ⟨a₂, ha₂, rfl⟩ := List.mem_map.mp hb₂
  rw [accept_update_job, accept_update_job] at hj
  rcases accept_update_status_accepted _ _ _ hs₁ with h₁ | ⟨hne₁, hnj₁, hst₁⟩ <;>
    rcases accept_update_status_accepted _ _ _ hs₂ with h₂ | ⟨hne₂, hnj₂, hst₂⟩
  · exact congrArg _ (eq_of_mem_of_id hnd ha₁ ha₂ (h₁.trans h₂.symm))
  · have he : a₁ = app := eq_of_mem_of_id hnd ha₁ hmem h₁
    have hj₁ : a₁.job = jid := by rw [he, hjob]
    exact absurd (hj.symm.trans hj₁) hnj₂
  · have he : a₂ = app := eq_of_mem_of_id hnd ha₂ hmem h₂
    have hj₂ : a₂.job = jid := by rw [he, hjob]
    exact absurd (hj.trans hj₂) hnj₁
  · exact congrArg _ (hmo a₁ ha₁ a₂ ha₂ hj hst₁ hst₂)

theorem Inv_accept (s : MarketState) (app : Application) (job : Job)
    (hmem : app ∈ s.applications)
    (hjid : job.id = app.job) (h : Inv s) :
    Inv { s with applications := s.applications.map (accept_update app.id job.id),
                 jobs := s.jobs.map (assign_update job.id app.id) } := by
  obtain ⟨h1, h2, h3, h4⟩ := h
  refine ⟨?_, ?_, ?_, ?_⟩
  · exact map_id_preserving_nodup (accept_update_id app.id job.id) h1
  · intro b hb
    obtain ⟨a, ha, rfl⟩ := List.mem_map.mp hb
    rw [accept_update_id]
    exact h2 a ha
  · exact atMostOne_accept s.applications app job.id h1 h3 hmem hjid.symm
  · intro j' hj' aid hsel'
    obtain ⟨j, hjm, rfl⟩ := List.mem_map.mp hj'
    by_cases hcase : j.id = job.id
    · have hsel'' : (assign_update job.id app.id j).selected_application = some app.id := by
        unfold assign_update; rw [if_pos hcase]
      have haid : app.id = aid := Option.some.inj (hsel''.symm.trans hsel')
      refine ⟨accept_update app.id job.id app, List.mem_map_of_mem _ hmem, ?_, ?_⟩
      · rw [accept_update_id]; exact haid
      · rw [accept_update_job, assign_update_id, hcase, hjid]
    · have hje : assign_update job.id app.id j = j := by
        unfold assign_update; rw [if_neg hcase]
      rw [hje] at hsel' ⊢
      obtain ⟨a, ham, haid, hajob⟩ := h4 j hjm aid hsel'
      refine ⟨accept_update app.id job.id a, List.mem_map_of_mem _ ham, ?_, ?_⟩
      · rw [accept_update_id]; exact haid
      · rw [accept_update_job]; exact hajob

theorem Inv_reject (s : MarketState) (pk : Nat) (h : Inv s) :
    Inv { s with applications := s.applications.map (reject_update pk) } := by
  obtain ⟨h1, h2, h3, h4⟩ := h
  refine ⟨?_, ?_, ?_, ?_⟩
  · exact map_id_preserving_nodup (reject_update_id pk) h1
  · intro b hb
    obtain ⟨a, ha, rfl⟩ := List.mem_map.mp hb
    rw [reject_update_id]
    exact h2 a ha
  · intro b₁ hb₁ b₂ hb₂ hj hs₁ hs₂
    obtain ⟨a₁, ha₁, rfl⟩ := List.mem_map.mp hb₁
    obtain ⟨a₂, ha₂, rfl⟩ := List.mem_map.mp hb₂
    rw [reject_update_job, reject_update_job] at hj
    exact congrArg _ (h3 a₁ ha₁ a₂ ha₂ hj
      (reject_update_status_accepted _ _ hs₁) (reject_update_status_accepted _ _ hs₂))
  · intro j hjm aid hsel'
    obtain ⟨a, ham, haid, hajob⟩ := h4 j hjm aid hsel'
    refine ⟨reject_update pk a, List.mem_map_of_mem _ ham, ?_, ?_⟩
    · rw [reject_update_id]; exact haid
    · rw [reject_update_job]; exact hajob

theorem Inv_app_append (s : MarketState) (x : Application)
    (hid : x.id = s.next_app_id) (hst : x.status = ApplicationStatus.pending)
    (h : Inv s) :
    Inv { s with applications := s.applications ++ [x],
                 next_app_id := s.next_app_id + 1 } := by
  obtain ⟨h1, h2, h3, h4⟩ := h
  refine ⟨?_, ?_, ?_, ?_⟩
  · unfold AppIdsNodup at h1 ⊢
    simp only [List.map_append, List.map_cons, List.map_nil]
    rw [List.nodup_append]
    refine ⟨h1, List.nodup_singleton _, ?_⟩
    intro y hy hy'
    have hy'' : y = x.id := by simpa using hy'
    obtain ⟨a, ha, rfl⟩ := List.mem_map.mp hy
    have := h2 a ha
    rw [hy'', hid] at this
    exact absurd this (lt_irrefl _)
  · intro a ha
    rcases List.mem_append.mp ha with hold | hnew
    · exact Nat.lt_succ_of_lt (h2 a hold)
    · have : a = x := by simpa using hnew
      rw [this, hid]
      exact Nat.lt_succ_self _
  · intro a₁ ha₁ a₂ ha₂ hj hs₁ hs₂
    rcases List.mem_append.mp ha₁ with ho₁ | hn₁ <;>
      rcases List.mem_append.mp ha₂ with ho₂ | hn₂
    · exact h3 a₁ ho₁ a₂ ho₂ hj hs₁ hs₂
    · have : a₂ = x := by simpa using hn₂
      rw [this, hst] at hs₂
      exact absurd hs₂ (by simp)
    · have : a₁ = x := by simpa using hn₁
      rw [this, hst] at hs₁
      exact absurd hs₁ (by simp)
    · have e₁ : a₁ = x := by simpa using hn₁
      have e₂ : a₂ = x := by simpa using hn₂
      rw [e₁, e₂]
  · intro j hjm aid hsel'
    obtain ⟨a, ham, rest⟩ := h4 j hjm aid hsel'
    exact ⟨a, List.mem_append_left _ ham, rest⟩

theorem Inv_job_append (s : MarketState) (j : Job)
    (hsel : j.selected_application = none) (h : Inv s) :
    Inv { s with jobs := s.jobs ++ [j], next_job_id := s.next_job_id + 1 } := by
  obtain ⟨h1, h2, h3, h4⟩ := h
  refine ⟨h1, h2, h3, ?_⟩
  intro j' hj' aid hsel'
  rcases List.mem_append.mp hj' with hold | hnew
  · exact h4 j' hold aid hsel'
  · have : j' = j := by simpa using hnew
    rw [this, hsel] at hsel'
    cases hsel'

/-! ### The invariant holds in every reachable state -/

theorem Inv_job_create (s : MarketState) (c : Nat) (t : String) (b1 b2 : Nat)
    (h : Inv s) : Inv (job_create s c t b1 b2).1 := by
  unfold job_create
  split_ifs with hb
  · exact Inv_job_append s _ rfl h
  · exact h

theorem Inv_application_create (s : MarketState) (c jid : Nat) (cm : String)
    (pb pd : Nat) (h : Inv s) : Inv (application_create s c jid cm pb pd).1 := by
  cases hf : s.jobs.find? (fun j => j.id == jid) with
  | none => simpa only [application_create, hf] using h
  | some job =>
    simp only [application_create, hf]
    split_ifs with h1 h2 h3 h4
    · exact h
    · exact h
    · exact h
    · refine Inv_of_eq _ _ (create_notification_applications _ _ _ _ _ _ _)
        (create_notification_jobs _ _ _ _ _ _ _)
        (create_notification_next_app_id _ _ _ _ _ _ _) ?_
      exact Inv_app_append s _ rfl rfl h
    · exact h

theorem Inv_application_update_status (s : MarketState) (c pk : Nat)
    (act : AppAction) (h : Inv s) :
    Inv (application_update_status s c pk act).1 := by
  cases hf : s.applications.find? (fun a => a.id == pk) with
  | none => cases act <;> simpa only [application_update_status, hf] using h
  | some app =>
    cases hfj : s.jobs.find? (fun j => j.id == app.job) with
    | none => cases act <;> simpa only [application_update_status, hf, hfj] using h
    | some job =>
      have hmem : app ∈ s.applications := List.mem_of_find?_eq_some hf
      have hjid : job.id = app.job := by simpa using List.find?_some hfj
      by_cases hemp : job.employer = c
      · cases act with
        | accept =>
          simp only [application_update_status, hf, hfj, if_pos hemp]
          refine Inv_of_eq _ _ (create_notification_applications _ _ _ _ _ _ _)
            (create_notification_jobs _ _ _ _ _ _ _)
            (create_notification_next_app_id _ _ _ _ _ _ _) ?_
          exact Inv_accept s app job hmem hjid h
        | reject =>
          simp only [application_update_status, hf, hfj, if_pos hemp]
          refine Inv_of_eq _ _ (create_notification_applications _ _ _ _ _ _ _)
            (create_notification_jobs _ _ _ _ _ _ _)
            (create_notification_next_app_id _ _ _ _ _ _ _) ?_
          exact Inv_reject s app.id h
        | other =>
          simpa only [application_update_status, hf, hfj, if_pos hemp] using h
      · cases act <;>
          simpa only [application_update_status, hf, hfj, if_neg hemp] using h

theorem Inv_job_mark_completed (s : MarketState) (c pk : Nat) (h : Inv s) :
    Inv (job_mark_completed s c pk).1 := by
  cases hf : s.jobs.find? (fun j => j.id == pk && j.employer == c) with
  | none => simpa only [job_mark_completed, hf] using h
  | some job =>
    have hcore : Inv { s with jobs := s.jobs.map (fun j =>
        if j.id = job.id then { j with status := JobStatus.completed } else j) } := by
      refine Inv_of_jobs_map s _ (fun j =>
        if j.id = job.id then { j with status := JobStatus.completed } else j)
        rfl rfl rfl ?_ ?_ h
      · intro j; dsimp only; split_ifs <;> rfl
      · intro j; dsimp only; split_ifs <;> rfl
    cases hsel : job.selected_application with
    | none => simpa only [job_mark_completed, hf, hsel] using hcore
    | some aid =>
      cases hfa : s.applications.find? (fun a => a.id == aid) with
      | none => simpa only [job_mark_completed, hf, hsel, hfa] using hcore
      | some app =>
        simp only [job_mark_completed, hf, hsel, hfa]
        exact Inv_of_eq _ _ (create_notification_applications _ _ _ _ _ _ _)
          (create_notification_jobs _ _ _ _ _ _ _)
          (create_notification_next_app_id _ _ _ _ _ _ _) hcore

theorem Inv_work_submission_create (s : MarketState) (c aid : Nat) (notes : String)
    (files : List String) (fv : Bool) (h : Inv s) :
    Inv (work_submission_create s c aid notes files fv).1 := by
  cases hf : s.applications.find? (fun a => a.id == aid) with
  | none => simpa only [work_submission_create, hf] using h
  | some app =>
    cases hfj : s.jobs.find? (fun j => j.id == app.job) with
    | none => simpa only [work_submission_create, hf, hfj] using h
    | some job =>
      simp only [work_submission_create, hf, hfj]
      split_ifs with h1 h2 h3 h4 <;>
        first
          | exact h
          | (refine Inv_of_eq _ _ (create_notification_applications _ _ _ _ _ _ _)
               (create_notification_jobs _ _ _ _ _ _ _)
               (create_notification_next_app_id _ _ _ _ _ _ _) ?_
             refine Inv_of_jobs_map s _ (fun j =>
               if j.id = job.id then { j with status := JobStatus.submitted } else j)
               rfl rfl rfl ?_ ?_ h
             · intro j; dsimp only; split_ifs <;> rfl
             · intro j; dsimp only; split_ifs <;> rfl)

theorem Inv_work_submission_update_status (s : MarketState) (c sid : Nat)
    (act : SubAction) (reason : String) (h : Inv s) :
    Inv (work_submission_update_status s c sid act reason).1 := by
  cases hf : s.submissions.find? (fun w => w.id == sid) with
  | none => cases act <;> simpa only [work_submission_update_status, hf] using h
  | some sub =>
    cases hfj : s.jobs.find? (fun j => j.id == sub.job) with
    | none => cases act <;> simpa only [work_submission_update_status, hf, hfj] using h
    | some job =>
      by_cases hemp : job.employer = c
      · cases act with
        | approve =>
          simp only [work_submission_update_status, hf, hfj, if_pos hemp]
          refine Inv_of_eq _ _ (create_notification_applications _ _ _ _ _ _ _)
            (create_notification_jobs _ _ _ _ _ _ _)
            (create_notification_next_app_id _ _ _ _ _ _ _) ?_
          refine Inv_of_jobs_map s _ (fun j =>
            if j.id = job.id then { j with status := JobStatus.completed } else j)
            rfl rfl rfl ?_ ?_ h
          · intro j; dsimp only; split_ifs <;> rfl
          · intro j; dsimp only; split_ifs <;> rfl
        | request_changes =>
          simp only [work_submission_update_status, hf, hfj, if_pos hemp]
          split_ifs with hr
          · exact h
          · refine Inv_of_eq _ _ (create_notification_applications _ _ _ _ _ _ _)
              (create_notification_jobs _ _ _ _ _ _ _)
              (create_notification_next_app_id _ _ _ _ _ _ _) ?_
            refine Inv_of_jobs_map s _ (fun j =>
              if j.id = job.id then { j with status := JobStatus.in_progress } else j)
              rfl rfl rfl ?_ ?_ h
            · intro j; dsimp only; split_ifs <;> rfl
            · intro j; dsimp only; split_ifs <;> rfl
        | other =>
          simpa only [work_submission_update_status, hf, hfj, if_pos hemp] using h
      · cases act <;>
          simpa only [work_submission_update_status, hf, hfj, if_neg hemp] using h

theorem Inv_review_create (s : MarketState) (c jid : Nat) (target : ReviewTarget)
    (rating : Nat) (comment : String) (h : Inv s) :
    Inv (review_create s c jid target rating comment).1 := by
  cases hf : s.jobs.find? (fun j => j.id == jid) with
  | none => simpa only [review_create, hf] using h
  | some job =>
    cases hrv : review_target_reviewee s c job target with
    | error o =>
      simp only [review_create, hf, hrv]
      split_ifs <;> exact h
    | ok reviewee =>
      simp only [review_create, hf, hrv]
      split_ifs with h1 h2 h3
      · exact h
      · refine Inv_of_eq _ _ ?_ ?_ ?_ h
        · rw [create_notification_applications]; rfl
        · rw [create_notification_jobs]; rfl
        · rw [create_notification_next_app_id]; rfl
      · exact h
      · exact h

theorem Step_Inv (s s' : MarketState) (h : Inv s) (hs : Step s s') : Inv s' := by
  cases hs with
  | post_job c t b1 b2 => exact Inv_job_create s c t b1 b2 h
  | apply_to_job c jid cm pb pd => exact Inv_application_create s c jid cm pb pd h
  | decide_application c pk act => exact Inv_application_update_status s c pk act h
  | complete_job c pk => exact Inv_job_mark_completed s c pk h
  | submit_work c aid notes files fv => exact Inv_work_submission_create s c aid notes files fv h
  | decide_submission c sid act reason => exact Inv_work_submission_update_status s c sid act reason h
  | post_review c jid target rating comment => exact Inv_review_create s c jid target rating comment h

theorem Init_Inv (s : MarketState) (h : Init s) : Inv s := by
  obtain ⟨hj, ha, -, -, -, -, -, -⟩ := h
  refine ⟨?_, ?_, ?_, ?_⟩
  · unfold AppIdsNodup; rw [ha]; exact List.nodup_nil
  · intro a hmem; rw [ha] at hmem; cases hmem
  · intro a hmem; rw [ha] at hmem; cases hmem
  · intro j hmem; rw [hj] at hmem; cases hmem

theorem Reachable_Inv (s : MarketState) (h : Reachable s) : Inv s := by
  induction h with
  | init s hi => exact Init_Inv s hi
  | step s s' _ hs ih => exact Step_Inv s s' ih hs

/-! ### Which operations keep a selected application accepted -/

theorem SelAcc_accept (s : MarketState) (app : Application) (job : Job)
    (hnd : AppIdsNodup s) (hmem : app ∈ s.applications)
    (hjid : job.id = app.job) (h : SelectedAccepted s) :
    SelectedAccepted { s with
      applications := s.applications.map (accept_update app.id job.id),
      jobs := s.jobs.map (assign_update job.id app.id) } := by
  intro j' hj' aid hsel'
  obtain ⟨j, hjm, rfl⟩ := List.mem_map.mp hj'
  by_cases hcase : j.id = job.id
  · have hsel'' : (assign_update job.id app.id j).selected_application = some app.id := by
      unfold assign_update; rw [if_pos hcase]
    have haid : app.id = aid := Option.some.inj (hsel''.symm.trans hsel')
    refine ⟨accept_update app.id job.id app, List.mem_map_of_mem _ hmem, ?_, ?_, ?_⟩
    · rw [accept_update_id]; exact haid
    · rw [accept_update_job, assign_update_id, hcase, hjid]
    · exact accept_update_of_id _ _ _ rfl
  · have hje : assign_update job.id app.id j = j := by
      unfold assign_update; rw [if_neg hcase]
    rw [hje] at hsel' ⊢
    obtain ⟨a, ham, haid, hajob, hastat⟩ := h j hjm aid hsel'
    have hane : a.id ≠ app.id := by
      intro he
      have hae : a = app := eq_of_mem_of_id hnd ham hmem he
      rw [hae] at hajob
      exact hcase (hjid.trans hajob).symm
    have hanj : a.job ≠ job.id := by
      rw [hajob]; exact fun hh => hcase hh.symm.symm
    refine ⟨accept_update app.id job.id a, List.mem_map_of_mem _ ham, ?_, ?_, ?_⟩
    · rw [accept_update_id]; exact haid
    · rw [accept_update_job]; exact hajob
    · unfold accept_update; rw [if_neg hane, if_neg hanj]; exact hastat

theorem SelAcc_reject (s : MarketState) (pk : Nat)
    (hns : ∀ j ∈ s.jobs, j.selected_application ≠ some pk)
    (h : SelectedAccepted s) :
    SelectedAccepted { s with applications := s.applications.map (reject_update pk) } := by
  intro j hjm aid hsel'
  obtain ⟨a, ham, haid, hajob, hastat⟩ := h j hjm aid hsel'
  have hne : aid ≠ pk := fun he => hns j hjm (he ▸ hsel')
  have hre : reject_update pk a = a := reject_update_of_ne pk a (by rw [haid]; exact hne)
  exact ⟨reject_update pk a, List.mem_map_of_mem _ ham, by rw [hre]; exact haid,
    by rw [hre]; exact hajob, by rw [hre]; exact hastat⟩

theorem SelAcc_job_create (s : MarketState) (c : Nat) (t : String) (b1 b2 : Nat)
    (h : SelectedAccepted s) : SelectedAccepted (job_create s c t b1 b2).1 := by
  simp only [job_create]
  split_ifs with hb
  · intro j hjm aid hsel
    rcases List.mem_append.mp hjm with hold | hnew
    · exact h j hold aid hsel
    · have hje := List.mem_singleton.mp hnew
      rw [hje] at hsel
      simp at hsel
  · exact h

theorem SelAcc_application_create (s : MarketState) (c jid : Nat) (cm : String)
    (pb pd : Nat) (h : SelectedAccepted s) :
    SelectedAccepted (application_create s c jid cm pb pd).1 := by
  cases hf : s.jobs.find? (fun j => j.id == jid) with
  | none => simpa only [application_create, hf] using h
  | some job =>
    simp only [application_create, hf]
    split_ifs with h1 h2 h3 h4
    · exact h
    · exact h
    · exact h
    · exact SelAcc_of_apps_append _ _
        { id := s.next_app_id, job := job.id, freelancer := c, cover_message := cm,
          proposed_budget := pb, proposed_days := pd, status := ApplicationStatus.pending }
        rfl rfl h
    · exact h

theorem SelAcc_application_update_status_accept (s : MarketState) (c pk : Nat)
    (hinv : Inv s) (h : SelectedAccepted s) :
    SelectedAccepted (application_update_status s c pk AppAction.accept).1 := by
  cases hf : s.applications.find? (fun a => a.id == pk) with
  | none => simpa only [application_update_status, hf] using h
  | some app =>
    cases hfj : s.jobs.find? (fun j => j.id == app.job) with
    | none => simpa only [application_update_status, hf, hfj] using h
    | some job =>
      have hmem : app ∈ s.applications := List.mem_of_find?_eq_some hf
      have hjid : job.id = app.job := by simpa using List.find?_some hfj
      by_cases hemp : job.employer = c
      · simp only [application_update_status, hf, hfj, if_pos hemp]
        exact SelAcc_of_eq _ _ rfl rfl (SelAcc_accept s app job hinv.1 hmem hjid h)
      · simpa only [application_update_status, hf, hfj, if_neg hemp] using h

theorem SelAcc_application_update_status_reject (s : MarketState) (c pk : Nat)
    (hns : ∀ j ∈ s.jobs, j.selected_application ≠ some pk)
    (h : SelectedAccepted s) :
    SelectedAccepted (application_update_status s c pk AppAction.reject).1 := by
  cases hf : s.applications.find? (fun a => a.id == pk) with
  | none => simpa only [application_update_status, hf] using h
  | some app =>
    cases hfj : s.jobs.find? (fun j => j.id == app.job) with
    | none => simpa only [application_update_status, hf, hfj] using h
    | some job =>
      have hid : app.id = pk := by simpa using List.find?_some hf
      by_cases hemp : job.employer = c
      · simp only [application_update_status, hf, hfj, if_pos hemp]
        exact SelAcc_of_eq _ _ rfl rfl (SelAcc_reject s app.id (hid ▸ hns) h)
      · simpa only [application_update_status, hf, hfj, if_neg hemp] using h

theorem SelAcc_application_update_status_other (s : MarketState) (c pk : Nat)
    (h : SelectedAccepted s) :
    SelectedAccepted (application_update_status s c pk AppAction.other).1 := by
  cases hf : s.applications.find? (fun a => a.id == pk) with
  | none => simpa only [application_update_status, hf] using h
  | some app =>
    cases hfj : s.jobs.find? (fun j => j.id == app.job) with
    | none => simpa only [application_update_status, hf, hfj] using h
    | some job =>
      by_cases hemp : job.employer = c
      · simpa only [application_update_status, hf, hfj, if_pos hemp] using h
      · simpa only [application_update_status, hf, hfj, if_neg hemp] using h

theorem SelAcc_job_mark_completed (s : MarketState) (c pk : Nat)
    (h : SelectedAccepted s) : SelectedAccepted (job_mark_completed s c pk).1 := by
  cases hf : s.jobs.find? (fun j => j.id == pk && j.employer == c) with
  | none => simpa only [job_mark_completed, hf] using h
  | some job =>
    have hcore : SelectedAccepted { s with jobs := s.jobs.map (fun j =>
        if j.id = job.id then { j with status := JobStatus.completed } else j) } := by
      refine SelAcc_of_jobs_map s _ (fun j =>
        if j.id = job.id then { j with status := JobStatus.completed } else j)
        rfl rfl ?_ ?_ h
      · intro j; dsimp only; split_ifs <;> rfl
      · intro j; dsimp only; split_ifs <;> rfl
    cases hsel : job.selected_application with
    | none => simpa only [job_mark_completed, hf, hsel] using hcore
    | some aid =>
      cases hfa : s.applications.find? (fun a => a.id == aid) with
      | none => simpa only [job_mark_completed, hf, hsel, hfa] using hcore
      | some app =>
        simp only [job_mark_completed, hf, hsel, hfa]
        exact SelAcc_of_eq _ _ rfl rfl hcore

theorem SelAcc_work_submission_create (s : MarketState) (c aid : Nat)
    (notes : String) (files : List String) (fv : Bool) (h : SelectedAccepted s) :
    SelectedAccepted (work_submission_create s c aid notes files fv).1 := by
  cases hf : s.applications.find? (fun a => a.id == aid) with
  | none => simpa only [work_submission_create, hf] using h
  | some app =>
    cases hfj : s.jobs.find? (fun j => j.id == app.job) with
    | none => simpa only [work_submission_create, hf, hfj] using h
    | some job =>
      simp only [work_submission_create, hf, hfj]
      split_ifs with h1 h2 h3 h4 <;>
        first
          | exact h
          | (refine SelAcc_of_jobs_map s _ (fun j =>
               if j.id = job.id then { j with status := JobStatus.submitted } else j)
               rfl rfl ?_ ?_ h
             · intro j; dsimp only; split_ifs <;> rfl
             · intro j; dsimp only; split_ifs <;> rfl)

theorem SelAcc_work_submission_update_status (s : MarketState) (c sid : Nat)
    (act : SubAction) (reason : String) (h : SelectedAccepted s) :
    SelectedAccepted (work_submission_update_status s c sid act reason).1 := by
  cases hf : s.submissions.find? (fun w => w.id == sid) with
  | none => cases act <;> simpa only [work_submission_update_status, hf] using h
  | some sub =>
    cases hfj : s.jobs.find? (fun j => j.id == sub.job) with
    | none => cases act <;> simpa only [work_submission_update_status, hf, hfj] using h
    | some job =>
      by_cases hemp : job.employer = c
      · cases act with
        | approve =>
          simp only [work_submission_update_status, hf, hfj, if_pos hemp]
          refine SelAcc_of_jobs_map s _ (fun j =>
            if j.id = job.id then { j with status := JobStatus.completed } else j)
            rfl rfl ?_ ?_ h
          · intro j; dsimp only; split_ifs <;> rfl
          · intro j; dsimp only; split_ifs <;> rfl
        | request_changes =>
          simp only [work_submission_update_status, hf, hfj, if_pos hemp]
          split_ifs with hr
          · exact h
          · refine SelAcc_of_jobs_map s _ (fun j =>
              if j.id = job.id then { j with status := JobStatus.in_progress } else j)
              rfl rfl ?_ ?_ h
            · intro j; dsimp only; split_ifs <;> rfl
            · intro j; dsimp only; split_ifs <;> rfl
        | other =>
          simpa only [work_submission_update_status, hf, hfj, if_pos hemp] using h
      · cases act <;>
          simpa only [work_submission_update_status, hf, hfj, if_neg hemp] using h

theorem SelAcc_review_create (s : MarketState) (c jid : Nat) (target : ReviewTarget)
    (rating : Nat) (comment : String) (h : SelectedAccepted s) :
    SelectedAccepted (review_create s c jid target rating comment).1 := by
  cases hf : s.jobs.find? (fun j => j.id == jid) with
  | none => simpa only [review_create, hf] using h
  | some job =>
    cases hrv : review_target_reviewee s c job target with
    | error o =>
      simp only [review_create, hf, hrv]
      split_ifs <;> exact h
    | ok reviewee =>
      simp only [review_create, hf, hrv]
      split_ifs with h1 h2 h3
      · exact h
      · exact SelAcc_of_eq s _ rfl rfl h
      · exact h
      · exact h

/-! ### Reaching the demonstration states -/

theorem reach_s0 : Reachable s0 := Reachable.init s0 (by decide)

theorem reach_s1 : Reachable s1 :=
  Reachable.step s0 s1 reach_s0 (Step.post_job s0 1 "T" 100 200)

theorem reach_s2 : Reachable s2 :=
  Reachable.step s1 s2 reach_s1 (Step.apply_to_job s1 2 10 "" 150 5)

theorem reach_s2b : Reachable s2b :=
  Reachable.step s2 s2b reach_s2 (Step.apply_to_job s2 3 10 "" 120 7)

theorem reach_s3 : Reachable s3 :=
  Reachable.step s2b s3 reach_s2b (Step.decide_application s2b 1 20 AppAction.accept)

theorem reach_s4 : Reachable s4 :=
  Reachable.step s3 s4 reach_s3 (Step.decide_application s3 1 20 AppAction.reject)

theorem reach_s5 : Reachable s5 :=
  Reachable.step s3 s5 reach_s3 (Step.complete_job s3 1 10)

theorem reach_s7 : Reachable s7 :=
  Reachable.step s5 s7 reach_s5 (Step.post_review s5 1 10 ReviewTarget.freelancer 5 "")

/-! ### Remaining helper lemmas -/

/-- The reject branch never touches the job table. -/
theorem reject_jobs (s : MarketState) (c pk : Nat) :
    ((application_update_status s c pk AppAction.reject).1).jobs = s.jobs := by
  cases hf : s.applications.find? (fun a => a.id == pk) with
  | none => simp only [application_update_status, hf]
  | some app =>
    cases hfj : s.jobs.find? (fun j => j.id == app.job) with
    | none => simp only [application_update_status, hf, hfj]
    | some job =>
      by_cases hemp : job.employer = c
      · simp only [application_update_status, hf, hfj, if_pos hemp]
        rfl
      · simp only [application_update_status, hf, hfj, if_neg hemp]

theorem selacc_of_none (s : MarketState)
    (h : ∀ j ∈ s.jobs, j.selected_application = none) : SelectedAccepted s := by
  intro j hj aid hsel
  rw [h j hj] at hsel
  cases hsel

theorem rate_update_id (uid cnt sum : Nat) (u : User) :
    (rate_update uid cnt sum u).id = u.id := by
  unfold rate_update; split_ifs <;> rfl

theorem update_reviewee_rating_reviews (s : MarketState) (uid : Nat) :
    (update_reviewee_rating s uid).reviews = s.reviews := rfl

/-- The integer formula of the code equals the exact rounded mean of the
specification. -/
theorem half_up_hundredths_eq_mean (l : List Nat) (hl : l.length ≠ 0) :
    half_up_hundredths l.sum l.length = half_up_mean_hundredths l := by
  unfold half_up_mean_hundredths
  rw [if_neg hl]
  have hne : (l.length : ℚ) ≠ 0 := Nat.cast_ne_zero.mpr hl
  have hcast : ((100 : ℚ) * ((l.sum : ℚ) / (l.length : ℚ)) + 1 / 2)
      = ((200 * l.sum + l.length : ℕ) : ℚ) / ((2 * l.length : ℕ) : ℚ) := by
    push_cast
    field_simp
    ring
  rw [hcast, Nat.floor_div_nat, Nat.floor_natCast]
  rfl

theorem job_status_set_map (jobs : List Job) (jid : Nat) (st : JobStatus) :
    job_status_set (jobs.map (fun j => if j.id = jid then { j with status := st } else j))
      jid st := by
  intro j hj hid
  obtain ⟨j0, hj0, rfl⟩ := List.mem_map.mp hj
  by_cases hc : j0.id = jid
  · dsimp only; rw [if_pos hc]
  · dsimp only at hid ⊢
    rw [if_neg hc] at hid ⊢
    exact absurd hid hc

theorem RatingAggregateCorrect_of_eq (s s' : MarketState) (uid : Nat)
    (hu : s'.users = s.users) (hr : s'.reviews = s.reviews)
    (h : RatingAggregateCorrect s uid) : RatingAggregateCorrect s' uid := by
  unfold RatingAggregateCorrect at h ⊢
  rw [hu, hr]
  exact h

/-- After the recompute, the reviewee's stored aggregate matches the
specification formula over the full current review set. -/
theorem update_reviewee_rating_correct (s : MarketState) (uid : Nat)
    (hnz : (s.reviews.filter (fun r => r.reviewee == uid)).length ≠ 0) :
    RatingAggregateCorrect (update_reviewee_rating s uid) uid := by
  intro u hu huid
  obtain ⟨u0, hu0, rfl⟩ := List.mem_map.mp hu
  rw [rate_update_id] at huid
  unfold rate_update
  rw [if_pos huid, if_neg hnz]
  refine ⟨rfl, ?_⟩
  show half_up_hundredths
      ((s.reviews.filter (fun r => r.reviewee == uid)).map (fun r => r.rating)).sum
      (s.reviews.filter (fun r => r.reviewee == uid)).length = _
  have hl : ((s.reviews.filter (fun r => r.reviewee == uid)).map (fun r => r.rating)).length ≠ 0 := by
    rw [List.length_map]; exact hnz
  have hmean := half_up_hundredths_eq_mean
    ((s.reviews.filter (fun r => r.reviewee == uid)).map (fun r => r.rating)) hl
  rw [List.length_map] at hmean
  exact hmean

/-- What the accept branch of application_update_status does whenever the
fetch succeeds: success outcome and all four effects, with no
precondition on the job's or the application's current status. -/
theorem accept_spec (s : MarketState) (caller pk : Nat)
    (app : Application) (job : Job)
    (happ : s.applications.find? (fun a => a.id == pk) = some app)
    (hjob : s.jobs.find? (fun j => j.id == app.job) = some job)
    (hemp : job.employer = caller) :
    (application_update_status s caller pk AppAction.accept).2 = Outcome.ok ∧
    AcceptedEffects (application_update_status s caller pk AppAction.accept).1 pk job.id := by
  have hid : app.id = pk := by simpa using List.find?_some happ
  have happs : (application_update_status s caller pk AppAction.accept).1.applications
      = s.applications.map (accept_update app.id job.id) := by
    simp only [application_update_status, happ, hjob, if_pos hemp]
    rfl
  have hjobs : (application_update_status s caller pk AppAction.accept).1.jobs
      = s.jobs.map (assign_update job.id app.id) := by
    simp only [application_update_status, happ, hjob, if_pos hemp]
    rfl
  refine ⟨by simp only [application_update_status, happ, hjob, if_pos hemp], ?_, ?_, ?_⟩
  · intro a ha haid
    rw [happs] at ha
    obtain ⟨a0, ha0, rfl⟩ := List.mem_map.mp ha
    rw [accept_update_id] at haid
    exact accept_update_of_id _ _ _ (haid.trans hid.symm)
  · intro a ha hjob' hane
    rw [happs] at ha
    obtain ⟨a0, ha0, rfl⟩ := List.mem_map.mp ha
    rw [accept_update_job] at hjob'
    rw [accept_update_id] at hane
    exact accept_update_of_other _ _ _ (fun he => hane (he.trans hid)) hjob'
  · intro j hj hjid'
    rw [hjobs] at hj
    obtain ⟨j0, hj0, rfl⟩ := List.mem_map.mp hj
    rw [assign_update_id] at hjid'
    have hupd : assign_update job.id app.id j0 =
        { j0 with status := JobStatus.assigned, selected_application := some app.id } := by
      unfold assign_update; rw [if_pos hjid']
    rw [hupd]
    exact ⟨rfl, by rw [hid]⟩

/-! ### The claims -/

/-- C1: accepting an application A on job J through the accept action of
application_update_status, called by J's employer, reports success and —
in the single transition the transaction forms, so no state with only
some of the effects is ever observable — sets A to accepted, force-rejects
every other application of J, sets J to assigned and selects A. -/
theorem accept_atomic_effects (s : MarketState) (caller pk : Nat)
    (app : Application) (job : Job)
    (happ : s.applications.find? (fun a => a.id == pk) = some app)
    (hjob : s.jobs.find? (fun j => j.id == app.job) = some job)
    (hemp : job.employer = caller) :
    (application_update_status s caller pk AppAction.accept).2 = Outcome.ok ∧
    AcceptedEffects (application_update_status s caller pk AppAction.accept).1 pk job.id ∧
    Step s (application_update_status s caller pk AppAction.accept).1 :=
  ⟨(accept_spec s caller pk app job happ hjob hemp).1,
   (accept_spec s caller pk app job happ hjob hemp).2,
   Step.decide_application s caller pk AppAction.accept⟩

/-- C1 witness: employer 1 accepts application 20 on job 10 in state s2b. -/
theorem accept_atomic_effects_witness :
    (application_update_status s2b 1 20 AppAction.accept).2 = Outcome.ok ∧
    AcceptedEffects (application_update_status s2b 1 20 AppAction.accept).1 20 10 ∧
    Step s2b (application_update_status s2b 1 20 AppAction.accept).1 :=
  accept_atomic_effects s2b 1 20 a20 j10 (by decide) (by decide) (by decide)

/-- C2: in every state reachable by the public operations, each job has
at most one accepted application. -/
theorem at_most_one_accepted_reachable (s : MarketState) (h : Reachable s) :
    AtMostOneAccepted s :=
  (Reachable_Inv s h).2.2.1

/-- C2 witness: the invariant in the state right after an accept. -/
theorem at_most_one_accepted_reachable_witness : AtMostOneAccepted s3 :=
  at_most_one_accepted_reachable s3 reach_s3

/-- C3 counterexample: the reachable state s4 — accept application 20,
then reject that same application — has job 10 still pointing at
application 20 through selected_application while application 20 is
rejected, so a reachable state violates the claimed invariant; the
reject action did not preserve it. -/
theorem selected_accepted_counterexample :
    Reachable s4 ∧
    s4.jobs.map (fun j => j.selected_application) = [some 20] ∧
    s4.applications.map (fun a => (a.id, a.status)) =
      [(20, ApplicationStatus.rejected), (21, ApplicationStatus.rejected)] ∧
    ¬ SelectedAccepted s4 := by
  refine ⟨reach_s4, by decide, by decide, ?_⟩
  intro h
  have hj : ∃ j ∈ s4.jobs, j.selected_application = some 20 := by decide
  obtain ⟨j, hjm, hsel⟩ := hj
  obtain ⟨a, ham, haid, hajob, hastat⟩ := h j hjm 20 hsel
  have hall : ∀ a ∈ s4.applications, a.status ≠ ApplicationStatus.accepted := by decide
  exact hall a ham hastat

/-- C3 amended: in every reachable state a set selected_application
belongs to this very job, and every operation preserves that; the
stronger property that the selected application is also accepted is
preserved by every operation except the reject action aimed at a job's
selected application itself (which leaves selected_application pointing
at a now-rejected application, as the counterexample shows). -/
theorem selected_application_invariant (s s' : MarketState)
    (h : Reachable s) (hstep : Step s s') (hacc : SelectedAccepted s)
    (hnr : ∀ caller pk,
      s' = (application_update_status s caller pk AppAction.reject).1 →
      ∀ j ∈ s.jobs, j.selected_application ≠ some pk) :
    SelectedBelongs s ∧ SelectedBelongs s' ∧ SelectedAccepted s' := by
  have hinv := Reachable_Inv s h
  have hinv' := Reachable_Inv s' (Reachable.step s s' h hstep)
  refine ⟨hinv.2.2.2, hinv'.2.2.2, ?_⟩
  cases hstep with
  | post_job c t b1 b2 => exact SelAcc_job_create s c t b1 b2 hacc
  | apply_to_job c jid cm pb pd => exact SelAcc_application_create s c jid cm pb pd hacc
  | decide_application c pk act =>
    cases act with
    | accept => exact SelAcc_application_update_status_accept s c pk hinv hacc
    | reject => exact SelAcc_application_update_status_reject s c pk (hnr c pk rfl) hacc
    | other => exact SelAcc_application_update_status_other s c pk hacc
  | complete_job c pk => exact SelAcc_job_mark_completed s c pk hacc
  | submit_work c aid notes files fv =>
    exact SelAcc_work_submission_create s c aid notes files fv hacc
  | decide_submission c sid act reason =>
    exact SelAcc_work_submission_update_status s c sid act reason hacc
  | post_review c jid target rating comment =>
    exact SelAcc_review_create s c jid target rating comment hacc

/-- C3 witness: the accept step from s2b to s3 preserves the invariant. -/
theorem selected_application_invariant_witness :
    SelectedBelongs s2b ∧ SelectedBelongs s3 ∧ SelectedAccepted s3 :=
  selected_application_invariant s2b s3 reach_s2b
    (Step.decide_application s2b 1 20 AppAction.accept)
    (selacc_of_none s2b (by decide))
    (fun caller pk heq =>
      absurd ((congrArg MarketState.jobs heq).trans (reject_jobs s2b caller pk))
        (by decide))

/-- C4 counterexample: in the reachable state s3, job 10 is assigned (not
open) and application 21 is already rejected (decided), yet the accept
action on application 21 reports success instead of failing, flips
application 21 to accepted and re-points the job at it. -/
theorem accept_guard_counterexample :
    Reachable s3 ∧
    s3.jobs.map (fun j => j.status) = [JobStatus.assigned] ∧
    (s3.applications.find? (fun a => a.id == 21)).map (fun a => a.status) =
      some ApplicationStatus.rejected ∧
    (application_update_status s3 1 21 AppAction.accept).2 = Outcome.ok ∧
    ((application_update_status s3 1 21 AppAction.accept).1.applications.find?
      (fun a => a.id == 21)).map (fun a => a.status) = some ApplicationStatus.accepted ∧
    (application_update_status s3 1 21 AppAction.accept).1.jobs.map
      (fun j => j.selected_application) = [some 21] :=
  ⟨reach_s3, by decide, by decide, by decide, by decide, by decide⟩

/-- C4 amended: the accept action checks only that the application exists
and that the caller is the job's employer; it performs no status
precondition at all, so even when the job is not open or the application
is already decided it succeeds and applies the accept effects rather
than failing with an invalid-operation error. -/
theorem accept_no_status_guard (s : MarketState) (caller pk : Nat)
    (app : Application) (job : Job)
    (happ : s.applications.find? (fun a => a.id == pk) = some app)
    (hjob : s.jobs.find? (fun j => j.id == app.job) = some job)
    (hemp : job.employer = caller)
    (_hns : job.status ≠ JobStatus.open_ ∨ app.status ≠ ApplicationStatus.pending) :
    (application_update_status s caller pk AppAction.accept).2 = Outcome.ok ∧
    AcceptedEffects (application_update_status s caller pk AppAction.accept).1 pk job.id :=
  accept_spec s caller pk app job happ hjob hemp

/-- C4 witness: re-accepting the rejected application 21 on the assigned
job 10 succeeds. -/
theorem accept_no_status_guard_witness :
    (application_update_status s3 1 21 AppAction.accept).2 = Outcome.ok ∧
    AcceptedEffects (application_update_status s3 1 21 AppAction.accept).1 21 10 :=
  accept_no_status_guard s3 1 21 a21r j10a (by decide) (by decide) (by decide)
    (Or.inl (by decide))

/-- C5: applying to one's own job or to a non-open job fails without
creating anything; a repeated apply by the same freelancer is an
informational no-op that creates no second row; a successful apply
creates exactly one pending Application and emits exactly one
notification to the job's employer. -/
theorem application_create_spec (s : MarketState) (caller job_id : Nat)
    (cm : String) (pb pd : Nat) (job : Job)
    (hfind : s.jobs.find? (fun j => j.id == job_id) = some job) :
    (job.employer = caller →
      application_create s caller job_id cm pb pd = (s, Outcome.error)) ∧
    (job.employer ≠ caller → job.status ≠ JobStatus.open_ →
      application_create s caller job_id cm pb pd = (s, Outcome.error)) ∧
    (job.employer ≠ caller → job.status = JobStatus.open_ →
      (s.applications.any (fun a => a.job == job.id && a.freelancer == caller)) = true →
      application_create s caller job_id cm pb pd = (s, Outcome.info)) ∧
    (job.employer ≠ caller → job.status = JobStatus.open_ →
      (s.applications.any (fun a => a.job == job.id && a.freelancer == caller)) = false →
      1 ≤ pd →
      (application_create s caller job_id cm pb pd).2 = Outcome.ok ∧
      (application_create s caller job_id cm pb pd).1.applications =
        s.applications ++
          [{ id := s.next_app_id, job := job.id, freelancer := caller,
             cover_message := cm, proposed_budget := pb, proposed_days := pd,
             status := ApplicationStatus.pending }] ∧
      (application_create s caller job_id cm pb pd).1.notifications.map (fun n => n.user) =
        s.notifications.map (fun n => n.user) ++ [job.employer]) := by
  refine ⟨?_, ?_, ?_, ?_⟩
  · intro h1
    simp only [application_create, hfind]
    rw [if_pos h1]
  · intro h1 h2
    simp only [application_create, hfind]
    rw [if_neg h1, if_pos h2]
  · intro h1 h2 h3
    simp only [application_create, hfind]
    rw [if_neg h1, if_neg (not_not_intro h2), if_pos h3]
  · intro h1 h2 h3 h4
    have h3' : ¬ ((s.applications.any (fun a => a.job == job.id && a.freelancer == caller)) = true) := by
      rw [h3]; simp
    simp only [application_create, hfind]
    rw [if_neg h1, if_neg (not_not_intro h2), if_neg h3', if_pos h4]
    exact ⟨rfl, rfl, by rw [create_notification_some_users_map]⟩

/-- C5 witness: freelancer 2 applies to the open job 10 in state s1. -/
theorem application_create_spec_witness :
    (application_create s1 2 10 "" 150 5).2 = Outcome.ok ∧
    (application_create s1 2 10 "" 150 5).1.applications = s1.applications ++ [a20] ∧
    (application_create s1 2 10 "" 150 5).1.notifications.map (fun n => n.user) =
      s1.notifications.map (fun n => n.user) ++ [1] :=
  (application_create_spec s1 2 10 "" 150 5 j10 (by decide)).2.2.2
    (by decide) (by decide) (by decide) (by decide)

/-- C6: a freelancer submitting work on an application that is not
accepted fails with an error and changes nothing (in particular the job
status is unchanged); on success exactly one WorkSubmission is created
whose status is resubmitted when a prior submission of this application
carries changes_requested and submitted otherwise, and the job moves to
submitted. -/
theorem work_submission_create_spec (s : MarketState) (caller application_id : Nat)
    (notes : String) (files : List String) (fv : Bool)
    (app : Application) (job : Job)
    (happ : s.applications.find? (fun a => a.id == application_id) = some app)
    (hjob : s.jobs.find? (fun j => j.id == app.job) = some job)
    (hfl : app.freelancer = caller) :
    (app.status ≠ ApplicationStatus.accepted →
      work_submission_create s caller application_id notes files fv = (s, Outcome.error)) ∧
    (app.status = ApplicationStatus.accepted → fv = true →
      (work_submission_create s caller application_id notes files fv).2 = Outcome.ok ∧
      (work_submission_create s caller application_id notes files fv).1.submissions =
        s.submissions ++
          [{ id := s.next_sub_id, application := app.id, job := job.id,
             submitted_by := caller, text_notes := notes, change_request_reason := none,
             status := if s.submissions.any (fun w => w.application == app.id &&
                 w.status == SubmissionStatus.changes_requested)
               then SubmissionStatus.resubmitted else SubmissionStatus.submitted }] ∧
      job_status_set (work_submission_create s caller application_id notes files fv).1.jobs
        job.id JobStatus.submitted) := by
  constructor
  · intro hns
    simp only [work_submission_create, happ, hjob]
    rw [if_pos hfl, if_neg hns]
  · intro hacc hfv
    simp only [work_submission_create, happ, hjob]
    rw [if_pos hfl, if_pos hacc, hfv, if_pos rfl]
    exact ⟨rfl, rfl, job_status_set_map s.jobs job.id JobStatus.submitted⟩

/-- C6 witness: freelancer 2 submits work on the accepted application 20
in state s3; no prior submission exists, so the status is submitted. -/
theorem work_submission_create_spec_witness :
    (work_submission_create s3 2 20 "done" [] true).2 = Outcome.ok ∧
    (work_submission_create s3 2 20 "done" [] true).1.submissions =
      s3.submissions ++
        [{ id := 30, application := 20, job := 10, submitted_by := 2,
           text_notes := "done", change_request_reason := none,
           status := SubmissionStatus.submitted }] ∧
    job_status_set (work_submission_create s3 2 20 "done" [] true).1.jobs
      10 JobStatus.submitted :=
  (work_submission_create_spec s3 2 20 "done" [] true a20a j10a
    (by decide) (by decide) (by decide)).2 (by decide) (by decide)

/-- C7: every successful review creation appends exactly one review and
leaves the reviewee's stored rating_count equal to the number of reviews
they have received and rating_avg equal to the half-up-rounded mean (in
hundredths) over the full current review set — the recompute reads the
whole set, so no hypothesis about the previously stored aggregate is
needed. -/
theorem review_rating_recompute (s : MarketState) (caller job_id : Nat)
    (target : ReviewTarget) (rating : Nat) (comment : String)
    (job : Job) (reviewee : Nat)
    (hjob : s.jobs.find? (fun j => j.id == job_id) = some job)
    (hrev : review_target_reviewee s caller job target = Except.ok reviewee)
    (hok : (review_create s caller job_id target rating comment).2 = Outcome.ok) :
    (review_create s caller job_id target rating comment).1.reviews.length
      = s.reviews.length + 1 ∧
    RatingAggregateCorrect (review_create s caller job_id target rating comment).1
      reviewee := by
  by_cases h1 : job.status = JobStatus.completed
  · by_cases h2 : (s.reviews.any (fun r => r.job == job.id && r.reviewer == caller &&
        r.reviewee == reviewee)) = true
    · exfalso
      simp only [review_create, hjob, hrev] at hok
      rw [if_pos h1, if_pos h2] at hok
      simp at hok
    · by_cases h3 : 1 ≤ rating ∧ rating ≤ 5
      · simp only [review_create, hjob, hrev]
        rw [if_pos h1, if_neg h2, if_pos h3]
        constructor
        · rw [create_notification_reviews, update_reviewee_rating_reviews]
          simp
        · refine RatingAggregateCorrect_of_eq _ _ _ rfl rfl
            (update_reviewee_rating_correct
              { s with
                reviews := s.reviews ++
                  [{ id := s.next_review_id, job := job.id, reviewer := caller,
                     reviewee := reviewee, rating := rating, comment := comment }],
                next_review_id := s.next_review_id + 1 } reviewee ?_)
          simp [List.filter_append]
      · exfalso
        simp only [review_create, hjob, hrev] at hok
        rw [if_pos h1, if_neg h2, if_neg h3] at hok
        simp at hok
  · exfalso
    simp only [review_create, hjob] at hok
    rw [if_neg h1] at hok
    simp at hok

/-- C7 witness: employer 1 reviews freelancer 2 with rating 5 on the
completed job 10; the stored aggregate becomes count 1, average 5.00. -/
theorem review_rating_recompute_witness :
    (review_create s5 1 10 ReviewTarget.freelancer 5 "").1.reviews.length
      = s5.reviews.length + 1 ∧
    RatingAggregateCorrect (review_create s5 1 10 ReviewTarget.freelancer 5 "").1 2 :=
  review_rating_recompute s5 1 10 ReviewTarget.freelancer 5 "" j10c 2
    (by rfl) (by rfl) (by rfl)

/-- C8: creating a review on a job that is not completed fails with an
error for every caller and both directions (the status gate precedes the
direction rules), and a second attempt at the same (job, reviewer,
reviewee) triple is an informational no-op whose result state is exactly
the input state — no second Review row, rating fields untouched. -/
theorem review_create_guards (s : MarketState) (caller job_id : Nat)
    (target : ReviewTarget) (rating : Nat) (comment : String)
    (job : Job) (reviewee : Nat)
    (hjob : s.jobs.find? (fun j => j.id == job_id) = some job) :
    (job.status ≠ JobStatus.completed →
      review_create s caller job_id target rating comment = (s, Outcome.error)) ∧
    (job.status = JobStatus.completed →
      review_target_reviewee s caller job target = Except.ok reviewee →
      (s.reviews.any (fun r => r.job == job.id && r.reviewer == caller &&
        r.reviewee == reviewee)) = true →
      review_create s caller job_id target rating comment = (s, Outcome.info)) := by
  constructor
  · intro h1
    simp only [review_create, hjob]
    rw [if_neg h1]
  · intro h1 hrv h2
    simp only [review_create, hjob, hrv]
    rw [if_pos h1, if_pos h2]

/-- C8 witness: a second employer-to-freelancer review on job 10 in s7 is
an informational no-op leaving the state unchanged. -/
theorem review_create_guards_witness :
    review_create s7 1 10 ReviewTarget.freelancer 4 "" = (s7, Outcome.info) :=
  (review_create_guards s7 1 10 ReviewTarget.freelancer 4 "" j10c 2 (by rfl)).2
    (by rfl) (by rfl) (by rfl)

/-- The services.py create, on a present user whose write succeeds. -/
theorem create_notification_persist_some_ok (pf : Nat → Bool) (s : MarketState)
    (uid : Nat) (nt : NotifType) (t m : String) (rt : Option String) (ri : Option Nat)
    (hpf : pf uid = false) :
    create_notification_persist pf s (some uid) nt t m rt ri =
      ({ s with
          notifications := s.notifications ++
            [{ id := s.next_notif_id, user := uid, ntype := nt, title := t, message := m,
               ref_type := rt, ref_id := ri, is_read := false }],
          next_notif_id := s.next_notif_id + 1 },
        Except.ok (some
          { id := s.next_notif_id, user := uid, ntype := nt, title := t,
            message := m, ref_type := rt, ref_id := ri, is_read := false })) := by
  simp [create_notification_persist, hpf]

/-- The services.py create on an absent user. -/
theorem create_notification_persist_none (pf : Nat → Bool) (s : MarketState)
    (nt : NotifType) (t m : String) (rt : Option String) (ri : Option Nat) :
    create_notification_persist pf s none nt t m rt ri = (s, Except.ok none) := rfl

/-- C9 counterexample: with two present users where only the first user's
write fails, notify_users raises and creates nothing for the second user
even though the second user's own write would succeed (first conjunct);
conversely when only the second write fails, the first user keeps their
notification while the rest of the fan-out is aborted — so one user's
persistence failure does prevent the remaining users from being
notified. -/
theorem notify_users_counterexample :
    ((fun uid => uid == 1) 2 = false) ∧
    (notify_users (fun uid => uid == 1) s0 [some 1, some 2] NotifType.system "t" "m"
      none none).1.notifications = [] ∧
    (notify_users (fun uid => uid == 1) s0 [some 1, some 2] NotifType.system "t" "m"
      none none).2 = Except.error () ∧
    (notify_users (fun uid => uid == 2) s0 [some 1, some 2] NotifType.system "t" "m"
      none none).1.notifications.map (fun n => n.user) = [1] ∧
    (notify_users (fun uid => uid == 2) s0 [some 1, some 2] NotifType.system "t" "m"
      none none).2 = Except.error () :=
  ⟨rfl, rfl, rfl, rfl, rfl⟩

/-- C9 amended: notify_users hands the same payload to the users in
order, skipping absent (None) entries without blocking the rest; when no
listed user's write fails, every present user receives exactly one
Notification and the created list mirrors the present users one-to-one.
A persistence failure, however, aborts the remaining fan-out (the
exception propagates out of the loop), as the counterexample shows. -/
theorem notify_users_fanout (pf : Nat → Bool) (s : MarketState)
    (users : List (Option Nat)) (nt : NotifType) (t m : String)
    (rt : Option String) (ri : Option Nat)
    (hok : ∀ uid : Nat, some uid ∈ users → pf uid = false) :
    (notify_users pf s users nt t m rt ri).1.notifications.map (fun n => n.user)
      = s.notifications.map (fun n => n.user) ++ users.filterMap id ∧
    (notify_users pf s users nt t m rt ri).2.map (fun l => l.map (fun n => n.user))
      = Except.ok (users.filterMap id) := by
  induction users generalizing s with
  | nil => simp [notify_users, Except.map]
  | cons u rest ih =>
    cases u with
    | none =>
      have hok' : ∀ uid : Nat, some uid ∈ rest → pf uid = false :=
        fun uid hm => hok uid (List.mem_cons_of_mem _ hm)
      simp only [notify_users, create_notification_persist_none]
      simpa [List.filterMap_cons] using ih s hok'
    | some uid =>
      have hpf : pf uid = false := hok uid (List.mem_cons_self _ _)
      have hok' : ∀ v : Nat, some v ∈ rest → pf v = false :=
        fun v hm => hok v (List.mem_cons_of_mem _ hm)
      obtain ⟨ih1, ih2⟩ := ih { s with
        notifications := s.notifications ++
          [{ id := s.next_notif_id, user := uid, ntype := nt, title := t, message := m,
             ref_type := rt, ref_id := ri, is_read := false }],
        next_notif_id := s.next_notif_id + 1 } hok'
      simp only [notify_users,
        create_notification_persist_some_ok pf s uid nt t m rt ri hpf]
      cases hres : notify_users pf { s with
          notifications := s.notifications ++
            [{ id := s.next_notif_id, user := uid, ntype := nt, title := t, message := m,
               ref_type := rt, ref_id := ri, is_read := false }],
          next_notif_id := s.next_notif_id + 1 } rest nt t m rt ri with
      | mk s2 r =>
        rw [hres] at ih1 ih2
        cases r with
        | error e => simp [Except.map] at ih2
        | ok ns =>
          simp only [Except.map] at ih2 ⊢
          constructor
          · rw [ih1]
            simp [List.filterMap_cons]
          · simp only [List.map_cons]
            rw [Except.ok.injEq] at ih2 ⊢
            rw [ih2]
            simp [List.filterMap_cons]

/-- C9 witness: three entries, one absent, no write failures — both
present users receive exactly one notification each, in order. -/
theorem notify_users_fanout_witness :
    (notify_users (fun _ => false) s0 [some 2, none, some 3] NotifType.system "t" "m"
      none none).1.notifications.map (fun n => n.user) = [2, 3] ∧
    (notify_users (fun _ => false) s0 [some 2, none, some 3] NotifType.system "t" "m"
      none none).2.map (fun l => l.map (fun n => n.user)) = Except.ok [2, 3] :=
  notify_users_fanout (fun _ => false) s0 [some 2, none, some 3] NotifType.system
    "t" "m" none none (fun _ _ => rfl)

/-- C10: job_mark_completed, run by the job's employer, sets the job to
completed with no precondition on its current status — a job in any
state, including cancelled or already completed, ends up completed — and
emits a notification to the selected freelancer exactly when
selected_application is set. -/
theorem job_mark_completed_spec (s : MarketState) (caller pk : Nat) (job : Job)
    (hjob : s.jobs.find? (fun j => j.id == pk && j.employer == caller) = some job) :
    (job_mark_completed s caller pk).2 = Outcome.ok ∧
    job_status_set (job_mark_completed s caller pk).1.jobs job.id JobStatus.completed ∧
    NotifiesSelectedFreelancer s (job_mark_completed s caller pk).1 job := by
  cases hsel : job.selected_application with
  | none =>
    refine ⟨?_, ?_, ?_⟩
    · simp [job_mark_completed, hjob, hsel]
    · simp only [job_mark_completed, hjob, hsel]
      exact job_status_set_map s.jobs job.id JobStatus.completed
    · simp [NotifiesSelectedFreelancer, job_mark_completed, hjob, hsel]
  | some aid =>
    cases hfa : s.applications.find? (fun a => a.id == aid) with
    | none =>
      refine ⟨?_, ?_, ?_⟩
      · simp [job_mark_completed, hjob, hsel, hfa]
      · simp only [job_mark_completed, hjob, hsel, hfa]
        exact job_status_set_map s.jobs job.id JobStatus.completed
      · simp [NotifiesSelectedFreelancer, job_mark_completed, hjob, hsel, hfa]
    | some app =>
      refine ⟨?_, ?_, ?_⟩
      · simp [job_mark_completed, hjob, hsel, hfa]
      · simp only [job_mark_completed, hjob, hsel, hfa]
        exact job_status_set_map s.jobs job.id JobStatus.completed
      · simp [NotifiesSelectedFreelancer, job_mark_completed, hjob, hsel, hfa,
          create_notification_some_users_map]

/-- C10 witness: completing the cancelled job 12 — no status
precondition stops it — with no selected application, so no notification
is created. -/
theorem job_mark_completed_spec_witness :
    (job_mark_completed sX 1 12).2 = Outcome.ok ∧
    job_status_set (job_mark_completed sX 1 12).1.jobs 12 JobStatus.completed ∧
    NotifiesSelectedFreelancer sX (job_mark_completed sX 1 12).1 jX :=
  job_mark_completed_spec sX 1 12 jX (by decide)

end Slowork
